import Mathlib

/-!
# Measurement kiosk firmware (`src/IOT.cpp`): embedding and verified properties

The sketch keeps its whole state in global variables and is driven by the
Arduino runtime: `setup()` once, then `loop()` forever.  The embedding below
turns the globals into one record, every call of `loop()` into a pure step
function on that record, and every value the sketch obtains from the outside
world during one call (ultrasonic pulse width, `millis()` readings, the BLE
advertisement, HTTP status codes) into a field of an input record.

Conventions.
* `unsigned long` is the 32-bit counter type of the target boards: `millis()`
  is the elapsed time modulo `2^32`, and `a - b` on it wraps.
* A `float` or `double` variable holds a rational number, namely the exact
  value of the binary floating-point number stored: `double` is IEEE binary64
  and `float` IEEE binary32, every operation rounding to nearest, ties to
  even.  The exponent range is not modelled; the only floating-point
  computation, `awal + (akhir / 100.0)` narrowed to `float`, stays between
  `2^-7` and `2^10`.  `(float)currentTinggi` is exact for the heights the
  sketch computes.
* `int distance = (duration * 0.034) / 2` is the truncation of
  `duration * 17 / 1000`.
* Display, LED matrix, serial output and `delay` have no effect on the state
  and are left out.
* The runtime calls `loop()` only after `setup()` has returned, which sets
  `sudahMulai`; statements about a call of `loop()` in a given stage therefore
  assume `sudahMulai = true`.
-/

namespace IOT

/-! ## Machine arithmetic -/

/-- Number of values of an `unsigned long` (32 bits on the target boards). -/
def ULONG_MOD : Nat := 4294967296

/-- Reading of `millis()` when `t` milliseconds have elapsed since boot: the
32-bit counter wraps around. -/
def millis (t : Nat) : Nat := t % ULONG_MOD

/-- Subtraction `a - b` on `unsigned long`: the result wraps modulo `2^32`. -/
def subUL (a b : Nat) : Nat := (a % ULONG_MOD + (ULONG_MOD - b % ULONG_MOD)) % ULONG_MOD

/-! ## Floating point -/

/-- The power `2^z` as a rational number. -/
def pow2 : Int → ℚ
  | Int.ofNat n => ((2 ^ n : Nat) : ℚ)
  | Int.negSucc n => 1 / ((2 ^ (n + 1) : Nat) : ℚ)

/-- Rounding to the nearest integer, a tie going to the even neighbour. -/
def roundHalfEven (x : ℚ) : Int :=
  let f := ⌊x⌋
  let r := x - f
  if r < 1 / 2 then f else if 1 / 2 < r then f + 1 else if f % 2 = 0 then f else f + 1

/-- For `q >= 1`: the number of halvings that bring `q` below 2, at most `n`. -/
def expUp (q : ℚ) : Nat → Nat
  | 0 => 0
  | n + 1 => if 2 ≤ q then expUp (q / 2) n + 1 else 0

/-- For `0 < q < 1`: the number of doublings that bring `q` to 1 or above, at
most `n`. -/
def expDown (q : ℚ) : Nat → Nat
  | 0 => 0
  | n + 1 => if q < 1 then expDown (2 * q) n + 1 else 0

/-- Binary exponent of `q > 0`: the `e` with `2^e <= q < 2^(e+1)`.  The
numerator, respectively the denominator, bounds the number of steps needed. -/
def binade (q : ℚ) : Int :=
  if 1 ≤ q then (expUp q q.num.natAbs : Int) else -(expDown q q.den : Int)

/-- Rounding of `q` to the nearest binary floating-point number with a
significand of `p` bits, ties to even (exponent range unbounded). -/
def roundBinary (p : Nat) (q : ℚ) : ℚ :=
  if q = 0 then 0
  else
    let u := pow2 (binade |q| - ((p : Int) - 1))
    (if q < 0 then -1 else 1) * (roundHalfEven (|q| / u) : ℚ) * u

/-- Rounding of the exact result of an operation to `double` (53-bit
significand). -/
def toDouble (q : ℚ) : ℚ := roundBinary 53 q

/-- Conversion to `float` (24-bit significand). -/
def toFloat (q : ℚ) : ℚ := roundBinary 24 q

/-! ## Globals -/

/-- `const unsigned long beratLockDuration = 4000;` (line 39). -/
def beratLockDuration : Nat := 4000

/-- `const unsigned long tinggiLockDuration = 4000;` (line 46). -/
def tinggiLockDuration : Nat := 4000

/-- The MAC address literal compared against in the weight stage (line 307). -/
def allowedMac : String := "28:29:47:39:32:70"

/-- The mutable globals of the sketch (lines 35-57). -/
structure State where
  berat : ℚ
  previousBerat : ℚ
  beratLocked : Bool
  beratLastUpdate : Nat
  currentTinggi : Int
  previousTinggi : Int
  tinggiLocked : Bool
  tinggiLastUpdate : Nat
  wifiConnected : Bool
  dataSent : Bool
  dataReset : Bool
  sudahMulai : Bool
deriving DecidableEq

/-- The initialisers of the globals (lines 35-57). -/
def initialState : State where
  berat := 0
  previousBerat := -1
  beratLocked := false
  beratLastUpdate := 0
  currentTinggi := 150
  previousTinggi := -1
  tinggiLocked := false
  tinggiLastUpdate := 0
  wifiConnected := false
  dataSent := false
  dataReset := false
  sudahMulai := false

/-! ## The outside world -/

/-- A scanned BLE advertisement as the sketch sees it: `peripheral.address()`
and the manufacturer-data bytes. -/
structure Peripheral where
  address : String
  manufacturerData : List Nat
deriving DecidableEq

/-- Everything one call of `loop()` reads from outside.
* `duration`: the value stored in `long duration` from `pulseIn` (line 266);
* `t1`: elapsed milliseconds at the `millis()` call that stamps a change
  (line 274 in the height stage, line 322 in the weight stage);
* `t2`: elapsed milliseconds at the `millis()` call of the lock test
  (line 288, line 339);
* `ble`: the result of `BLE.available()`, `none` when it is falsy;
* `sendStatus`, `resetStatus`: what `httpClient.responseStatusCode()` returns
  for the `/recive` and `/reset/...` requests, should they be issued. -/
structure Input where
  duration : Int
  t1 : Nat
  t2 : Nat
  ble : Option Peripheral
  sendStatus : Int
  resetStatus : Int

/-- Calls of the two network functions, recorded in order.  `code` is the HTTP
status the call obtained, `none` when it returned before any request because
`wifiConnected` was false. -/
inductive Event where
  | send (bb tb : ℚ) (code : Option Int)
  | reset (code : Option Int)
deriving DecidableEq

/-- Number of `sendDataToServer` calls in a log. -/
def countSend : List Event → Nat
  | [] => 0
  | Event.send _ _ _ :: es => countSend es + 1
  | Event.reset _ :: es => countSend es

/-- Arguments `(bb, tb)` of the `sendDataToServer` calls in a log. -/
def sendArgs : List Event → List (ℚ × ℚ)
  | [] => []
  | Event.send bb tb _ :: es => (bb, tb) :: sendArgs es
  | Event.reset _ :: es => sendArgs es

/-- Outcome of the most recent `resetDeviceData` call in a log (`none` when
there is no such call). -/
def lastReset : List Event → Option (Option Int)
  | [] => none
  | Event.send _ _ _ :: es => lastReset es
  | Event.reset c :: es =>
    match lastReset es with
    | some r => some r
    | none => some c

/-! ## Network functions -/

/-- `resetDeviceData()` (lines 101-142); `status` is the HTTP status code the
request obtains. Returns the result, the new globals and the call record. -/
def resetDeviceData (s : State) (status : Int) : Bool × State × List Event :=
  if !s.wifiConnected then
    (false, s, [Event.reset none])
  else if status = 200 then
    (true, { s with dataReset := true }, [Event.reset (some status)])
  else
    (false, { s with dataReset := false }, [Event.reset (some status)])

/-- `sendDataToServer(bb, tb)` (lines 145-200); it changes no global. -/
def sendDataToServer (s : State) (bb tb : ℚ) (status : Int) : Bool × List Event :=
  if !s.wifiConnected then
    (false, [Event.send bb tb none])
  else if status = 200 then
    (true, [Event.send bb tb (some status)])
  else
    (false, [Event.send bb tb (some status)])

/-! ## Boot -/

/-- What `setup()` reads from outside: `wifiStatus k` tells whether the
`k`-th call of `WiFi.status()` (counted from 0) returns `WL_CONNECTED`,
`resetStatus` is the HTTP status of the boot-time reset request, `bleBegin`
the result of `BLE.begin()`. -/
structure BootInput where
  wifiStatus : Nat → Bool
  resetStatus : Int
  bleBegin : Bool

/-- The `while (WiFi.status() != WL_CONNECTED && attempts < 20)` loop of
`connectWiFi` (lines 67-72): `fuel` is `20 - attempts`; the result is the value
of `attempts` at exit.  The `k`-th evaluation of the condition reads
`status k`. -/
def connectWiFiLoop (status : Nat → Bool) : Nat → Nat → Nat
  | 0, attempts => attempts
  | fuel + 1, attempts =>
    if !status attempts then connectWiFiLoop status fuel (attempts + 1) else attempts

/-- `connectWiFi()` (lines 60-95): after the waiting loop (which read
`WiFi.status()` `attempts + 1` times) the status is read once more and stored
in `wifiConnected`. -/
def connectWiFi (s : State) (status : Nat → Bool) : State :=
  let attempts := connectWiFiLoop status 20 0
  if status (attempts + 1) then { s with wifiConnected := true }
  else { s with wifiConnected := false }

/-- `setup()` (lines 202-253). `none` stands for the `while (1);` of line 234:
`setup` never returns and `loop` is never called. -/
def setup (b : BootInput) : Option (State × List Event) :=
  let s := connectWiFi initialState b.wifiStatus
  let r := if s.wifiConnected then
      ((resetDeviceData s b.resetStatus).2.1, (resetDeviceData s b.resetStatus).2.2)
    else (s, [])
  if !b.bleBegin then none
  else some ({ r.1 with sudahMulai := true }, r.2)

/-! ## Height stage -/

/-- `int distance = (duration * 0.034) / 2;` (line 267): conversion to `int`
truncates toward zero. -/
def distance (duration : Int) : Int := Int.tdiv (duration * 17) 1000

/-- The height computation of lines 267-270: the value of `currentTinggi` after
the two clamping statements. -/
def computeTinggi (duration : Int) : Int :=
  let currentTinggi := 150 - distance duration
  let currentTinggi := if currentTinggi > 150 then 150 else currentTinggi
  if currentTinggi < 0 then 0 else currentTinggi

/-- Body of `if (!tinggiLocked) { ... return; }` (lines 259-300). -/
def prosesTinggi (s : State) (i : Input) : State :=
  let s := { s with currentTinggi := computeTinggi i.duration }
  let s := if s.currentTinggi ≠ s.previousTinggi then
      { s with previousTinggi := s.currentTinggi, tinggiLastUpdate := millis i.t1 }
    else s
  if subUL (millis i.t2) s.tinggiLastUpdate ≥ tinggiLockDuration ∧ s.previousTinggi > 0 then
    { s with tinggiLocked := true }
  else s

/-! ## Weight stage -/

/-- Value `len` returned by `peripheral.manufacturerData(mfgData, sizeof(mfgData))`
(line 309): the number of bytes copied into the 20-byte buffer. -/
def mfgLen (p : Peripheral) : Nat := min p.manufacturerData.length 20

/-- Byte `mfgData[k]` of the buffer (a `uint8_t`). -/
def mfgByte (p : Peripheral) (k : Nat) : Nat := p.manufacturerData.getD k 0 % 256

/-- `int raw = (b1 << 8) | b2;` (line 314). -/
def decodeRaw (b1 b2 : Nat) : Nat := (b1 <<< 8) ||| b2

/-- Lines 314-318: `awal = raw / 100`, `akhir = raw % 100`,
`berat = awal + (akhir / 100.0)`.  The two `int`s convert to `double` exactly,
the quotient and the sum are each rounded to `double`, and the assignment to
the `float` variable `berat` narrows the sum. -/
def decodeBerat (b1 b2 : Nat) : ℚ :=
  let raw := decodeRaw b1 b2
  let awal := raw / 100
  let akhir := raw % 100
  toFloat (toDouble ((awal : ℚ) + toDouble ((akhir : ℚ) / 100)))

/-- Weight decoded from an advertisement: bytes 2 and 3 of the buffer
(lines 312-318). -/
def beratOf (p : Peripheral) : ℚ := decodeBerat (mfgByte p 2) (mfgByte p 3)

/-- Lines 304-337: handling of the advertisement in the weight stage. -/
def bacaBerat (s : State) (i : Input) : State :=
  match i.ble with
  | none => s
  | some p =>
    if p.address = allowedMac then
      if mfgLen p ≥ 4 then
        let s := { s with berat := beratOf p }
        if s.berat ≠ s.previousBerat then
          { s with previousBerat := s.berat, beratLastUpdate := millis i.t1 }
        else s
      else s
    else s

/-- Body of `if (!beratLocked) { ... return; }` (lines 303-351). -/
def prosesBerat (s : State) (i : Input) : State :=
  let s := bacaBerat s i
  if subUL (millis i.t2) s.beratLastUpdate ≥ beratLockDuration ∧ s.previousBerat > 0 then
    { s with beratLocked := true }
  else s

/-! ## Result phase -/

/-- Lines 375-402: the conditional submission. -/
def kirimHasil (s : State) (i : Input) : State × List Event :=
  if !s.dataSent && s.dataReset then
    let r := sendDataToServer s s.berat (s.currentTinggi : ℚ) i.sendStatus
    ({ s with dataSent := r.1 }, r.2)
  else (s, [])

/-- Lines 417-435: reset for the next measurement. -/
def resetUkur (s : State) (i : Input) : State × List Event :=
  let s := { s with
    tinggiLocked := false, beratLocked := false, dataSent := false, dataReset := false,
    previousTinggi := -1, previousBerat := -1 }
  if s.wifiConnected then
    ((resetDeviceData s i.resetStatus).2.1, (resetDeviceData s i.resetStatus).2.2)
  else (s, [])

/-- Body of `if (tinggiLocked && beratLocked) { ... }` (lines 354-436). -/
def hasilAkhir (s : State) (i : Input) : State × List Event :=
  let r := kirimHasil s i
  let q := resetUkur r.1 i
  (q.1, r.2 ++ q.2)

/-! ## The main loop -/

/-- One call of `loop()` (lines 255-437): the new globals and the network calls
made. -/
def loop (s : State) (i : Input) : State × List Event :=
  if !s.sudahMulai then (s, [])
  else if !s.tinggiLocked then (prosesTinggi s i, [])
  else if !s.beratLocked then (prosesBerat s i, [])
  else if s.tinggiLocked && s.beratLocked then hasilAkhir s i
  else (s, [])

/-- Globals after `k` calls of `loop()`, the `j`-th call (from 0) reading
`inp j`. -/
def run (s : State) (inp : Nat → Input) : Nat → State
  | 0 => s
  | k + 1 => (loop (run s inp k) (inp k)).1

/-- Network calls made by the first `k` calls of `loop()`. -/
def log (s : State) (inp : Nat → Input) : Nat → List Event
  | 0 => []
  | k + 1 => log s inp k ++ (loop (run s inp k) (inp k)).2

/-- The four globals of the height detector. -/
def heightFields (s : State) : Int × Int × Nat × Bool :=
  (s.currentTinggi, s.previousTinggi, s.tinggiLastUpdate, s.tinggiLocked)

/-- The lock test of the weight stage (line 339) on globals `s` when `millis()`
is called `t` milliseconds after boot. -/
def beratLockTest (s : State) (t : Nat) : Prop :=
  subUL (millis t) s.beratLastUpdate ≥ beratLockDuration ∧ s.previousBerat > 0

instance (s : State) (t : Nat) : Decidable (beratLockTest s t) := by
  unfold beratLockTest; infer_instance

/-! ## Concrete scenarios -/

/-- Globals in the weight stage: height locked at 120, weight 3.00 last changed
at `millis() = 1000`, previous reset acknowledged. -/
def stableWeightState : State where
  berat := 3
  previousBerat := 3
  beratLocked := false
  beratLastUpdate := 1000
  currentTinggi := 120
  previousTinggi := 120
  tinggiLocked := true
  tinggiLastUpdate := 0
  wifiConnected := true
  dataSent := false
  dataReset := true
  sudahMulai := true

/-- A call of `loop()` 5000 ms after boot during which no advertisement is
available. -/
def silentInput : Input where
  duration := 0
  t1 := 5000
  t2 := 5000
  ble := none
  sendStatus := 200
  resetStatus := 200

/-- A call of `loop()` 2000 ms after boot during which the allow-listed scale
advertises the bytes `0x18, 0x5A` (raw 6234) at offsets 2 and 3. -/
def scaleInput : Input where
  duration := 0
  t1 := 2000
  t2 := 2000
  ble := some ⟨"28:29:47:39:32:70", [0xFF, 0xFF, 0x18, 0x5A, 0x00]⟩
  sendStatus := 200
  resetStatus := 200

/-- Globals in the result phase: both stages locked, previous reset
acknowledged. -/
def bothLockedState : State where
  berat := 3
  previousBerat := 3
  beratLocked := true
  beratLastUpdate := 1000
  currentTinggi := 120
  previousTinggi := 120
  tinggiLocked := true
  tinggiLastUpdate := 0
  wifiConnected := true
  dataSent := false
  dataReset := true
  sudahMulai := true

/-- Globals right after a boot without WiFi: the initialisers, with
`sudahMulai` set by `setup`. -/
def freshState : State := { initialState with sudahMulai := true }

/-- Calls of `loop()` spaced 1000 ms apart, the first one 296 ms before the
`millis()` counter wraps, each measuring a pulse of 1765 us (distance 30,
height 120). -/
def steadyInputs (k : Nat) : Input where
  duration := 1765
  t1 := 4294967000 + k * 1000
  t2 := 4294967000 + k * 1000
  ble := none
  sendStatus := 200
  resetStatus := 200

/-- Calls of `loop()` spaced 5000 ms apart whose pulse widths alternate between
0 us (height 150) and 1765 us (height 120); the two `millis()` reads of a call
are 10 ms apart. -/
def alternatingInputs (k : Nat) : Input where
  duration := if k % 2 = 0 then 0 else 1765
  t1 := 5000 * k
  t2 := 5000 * k + 10
  ble := none
  sendStatus := 200
  resetStatus := 200

/-- A boot on which WiFi connects at once, the reset request answers 200 and
BLE starts. -/
def bootOk : BootInput where
  wifiStatus := fun _ => true
  resetStatus := 200
  bleBegin := true

/-- Globals when `setup` returns on `bootOk`. -/
def bootState : State :=
  { initialState with wifiConnected := true, dataReset := true, sudahMulai := true }

/-- A full measurement: calls of `loop()` 4000 ms apart, each measuring a pulse
of 1765 us (height 120); the scale advertises raw value 6234 during call 2 and
is silent otherwise. Calls 0-1 are the height stage, calls 2-3 the weight
stage, call 4 the result phase. -/
def cycleInputs (k : Nat) : Input where
  duration := 1765
  t1 := 4000 * k
  t2 := 4000 * k
  ble := if k = 2 then some ⟨"28:29:47:39:32:70", [0xFF, 0xFF, 0x18, 0x5A, 0x00]⟩ else none
  sendStatus := 200
  resetStatus := 200

/-- Calls of `loop()` 5000 ms apart, each measuring a pulse of 10000 us
(distance 170, height clamped to 0) and seeing the scale advertise raw
value 0. -/
def zeroInputs (k : Nat) : Input where
  duration := 10000
  t1 := 5000 * k
  t2 := 5000 * k
  ble := some ⟨"28:29:47:39:32:70", [0xFF, 0xFF, 0x00, 0x00]⟩
  sendStatus := 200
  resetStatus := 200

/-- Globals at the start of the weight stage of a new cycle: height locked at
120, weight detector at its sentinel. -/
def weightStartState : State :=
  { bootState with currentTinggi := 120, previousTinggi := 120, tinggiLocked := true }

/-- Invariant of every state reached from boot, together with the calls
logged so far: `loop` is enabled, `dataSent` is false between calls, and
`dataReset` records whether the most recent reset call answered 200 (without
WiFi no reset call is ever made and `dataReset` is false). -/
def BootInv (s : State) (hist : List Event) : Prop :=
  s.sudahMulai = true ∧ s.dataSent = false ∧
  (s.wifiConnected = true → (s.dataReset = true ↔ lastReset hist = some (some 200))) ∧
  (s.wifiConnected = false → s.dataReset = false ∧ lastReset hist = none)

/-- Invariant of a measuring cycle that started from freshly reset globals
with the reset acknowledged, up to the result phase: the weight detector is
untouched while the height is unlocked, a locked height is the stored sample
and lies in `[1, 150]`, a positive stored weight equals `berat`, and a locked
weight is positive. -/
def CycleInv (s : State) : Prop :=
  s.sudahMulai = true ∧ s.dataSent = false ∧ s.dataReset = true ∧
  (s.tinggiLocked = false → s.beratLocked = false ∧ s.previousBerat = -1) ∧
  (s.tinggiLocked = true →
    s.currentTinggi = s.previousTinggi ∧ 1 ≤ s.currentTinggi ∧ s.currentTinggi ≤ 150) ∧
  (0 < s.previousBerat → s.previousBerat = s.berat) ∧
  (s.beratLocked = true → 0 < s.previousBerat)

/-! ## Basic facts about the step function -/

theorem subUL_millis_add (t d : Nat) : subUL (millis (t + d)) (millis t) = d % ULONG_MOD := by
  unfold subUL millis ULONG_MOD
  omega

theorem loop_tinggi (s : State) (i : Input) (h0 : s.sudahMulai = true)
    (h1 : s.tinggiLocked = false) : loop s i = (prosesTinggi s i, []) := by
  simp [loop, h0, h1]

theorem loop_berat (s : State) (i : Input) (h0 : s.sudahMulai = true)
    (h1 : s.tinggiLocked = true) (h2 : s.beratLocked = false) :
    loop s i = (prosesBerat s i, []) := by
  simp [loop, h0, h1, h2]

theorem loop_hasil (s : State) (i : Input) (h0 : s.sudahMulai = true)
    (h1 : s.tinggiLocked = true) (h2 : s.beratLocked = true) :
    loop s i = hasilAkhir s i := by
  simp [loop, h0, h1, h2]

theorem loop_idle (s : State) (i : Input) (h0 : s.sudahMulai = false) :
    loop s i = (s, []) := by
  simp [loop, h0]

theorem computeTinggi_bounds (duration : Int) :
    0 ≤ computeTinggi duration ∧ computeTinggi duration ≤ 150 := by
  unfold computeTinggi
  simp only
  split_ifs <;> omega

theorem prosesTinggi_currentTinggi (s : State) (i : Input) :
    (prosesTinggi s i).currentTinggi = computeTinggi i.duration := by
  unfold prosesTinggi
  simp only
  split_ifs <;> rfl

theorem decodeRaw_eq (b1 b2 : Nat) (h2 : b2 < 256) : decodeRaw b1 b2 = 256 * b1 + b2 := by
  unfold decodeRaw
  rw [Nat.shiftLeft_eq, Nat.mul_comm]
  exact (Nat.mul_add_lt_is_or (show b2 < 2 ^ 8 from h2) b1).symm

theorem split_hundred (raw : Nat) :
    ((raw / 100 : Nat) : ℚ) + ((raw % 100 : Nat) : ℚ) / 100 = (raw : ℚ) / 100 := by
  have h : (100 : ℚ) * ((raw / 100 : Nat) : ℚ) + ((raw % 100 : Nat) : ℚ) = (raw : ℚ) := by
    exact_mod_cast Nat.div_add_mod raw 100
  rw [← h]
  ring

theorem prosesBerat_berat (s : State) (i : Input) :
    (prosesBerat s i).berat = (bacaBerat s i).berat := by
  unfold prosesBerat
  simp only
  split_ifs <;> rfl

/-! ## Floating-point rounding -/

theorem pow2_eq_zpow (z : Int) : pow2 z = (2 : ℚ) ^ z := by
  cases z with
  | ofNat n => simp [pow2]
  | negSucc n => simp [pow2, zpow_negSucc]

theorem pow2_pos (z : Int) : 0 < pow2 z := by
  rw [pow2_eq_zpow]
  positivity

theorem roundHalfEven_err (x : ℚ) : |((roundHalfEven x : Int) : ℚ) - x| ≤ 1 / 2 := by
  have h1 := Int.floor_le x
  have h2 := Int.lt_floor_add_one x
  unfold roundHalfEven
  simp only
  rw [abs_le]
  split_ifs with a b c <;> push_cast <;> constructor <;> linarith

theorem roundHalfEven_nonneg (x : ℚ) (hx : 0 ≤ x) : 0 ≤ roundHalfEven x := by
  have h0 : 0 ≤ ⌊x⌋ := Int.floor_nonneg.mpr hx
  unfold roundHalfEven
  simp only
  split_ifs <;> omega

theorem expUp_le (n : Nat) : ∀ q : ℚ, 1 ≤ q → (2 : ℚ) ^ expUp q n ≤ q := by
  induction n with
  | zero => intro q hq; simpa [expUp] using hq
  | succ n ih =>
    intro q hq
    unfold expUp
    split_ifs with h
    · have := ih (q / 2) (by linarith)
      rw [pow_succ]
      linarith
    · simpa using hq

theorem binade_le (q : ℚ) (E : Nat) (h : q < (2 : ℚ) ^ (E + 1)) : binade q ≤ E := by
  unfold binade
  split_ifs with h1
  · have h2 := expUp_le q.num.natAbs q h1
    have h3 : (2 : ℚ) ^ expUp q q.num.natAbs < (2 : ℚ) ^ (E + 1) := lt_of_le_of_lt h2 h
    have h4 := (pow_lt_pow_iff_right₀ (by norm_num : (1 : ℚ) < 2)).1 h3
    omega
  · omega

theorem roundBinary_nonneg (p : Nat) (q : ℚ) (hq : 0 ≤ q) : 0 ≤ roundBinary p q := by
  unfold roundBinary
  split_ifs with h0 hneg
  · exact le_refl 0
  · exact absurd hneg (not_lt.mpr hq)
  · simp only
    rw [abs_of_nonneg hq]
    have hu := pow2_pos (binade q - ((p : Int) - 1))
    have hr : (0 : ℚ) ≤ (roundHalfEven (q / pow2 (binade q - ((p : Int) - 1))) : ℚ) := by
      exact_mod_cast roundHalfEven_nonneg _ (div_nonneg hq hu.le)
    positivity

theorem roundBinary_err (p : Nat) (q : ℚ) (E : Nat) (hq : 0 ≤ q) (h : q < (2 : ℚ) ^ (E + 1)) :
    |roundBinary p q - q| ≤ (2 : ℚ) ^ ((E : Int) - p) := by
  unfold roundBinary
  split_ifs with h0 hneg
  · rw [h0]; simp; positivity
  · exact absurd hneg (not_lt.mpr hq)
  · simp only
    rw [abs_of_nonneg hq]
    have hu := pow2_pos (binade q - ((p : Int) - 1))
    set u := pow2 (binade q - ((p : Int) - 1)) with hudef
    have he := roundHalfEven_err (q / u)
    have hmul : (1 : ℚ) * (roundHalfEven (q / u) : ℚ) * u - q
        = ((roundHalfEven (q / u) : ℚ) - q / u) * u := by
      field_simp
    rw [hmul, abs_mul, abs_of_pos hu]
    have hb := binade_le q E h
    have hu2 : u / 2 ≤ (2 : ℚ) ^ ((E : Int) - p) := by
      rw [hudef, pow2_eq_zpow]
      have : (2 : ℚ) ^ (binade q - ((p : Int) - 1)) / 2 = (2 : ℚ) ^ (binade q - p) := by
        rw [show binade q - ((p : Int) - 1) = (binade q - p) + 1 by ring, zpow_add_one₀ (by norm_num)]
        field_simp
      rw [this]
      exact zpow_le_zpow_right₀ (by norm_num) (by omega)
    calc |(roundHalfEven (q / u) : ℚ) - q / u| * u ≤ 1 / 2 * u := by
          exact mul_le_mul_of_nonneg_right he hu.le
      _ = u / 2 := by ring
      _ ≤ _ := hu2

theorem expUp_lt (n : Nat) : ∀ q : ℚ, q < (2 : ℚ) ^ (n + 1) → q < (2 : ℚ) ^ (expUp q n + 1) := by
  induction n with
  | zero => intro q hq; simpa [expUp] using hq
  | succ n ih =>
    intro q hq
    unfold expUp
    split_ifs with h
    · have := ih (q / 2) (by rw [pow_succ] at hq; linarith)
      rw [pow_succ]
      linarith
    · simp only [not_le] at h
      simpa using h

theorem expDown_spec (n : Nat) : ∀ q : ℚ, 0 < q → q < 1 → 1 ≤ (2 : ℚ) ^ n * q →
    1 ≤ (2 : ℚ) ^ expDown q n * q ∧ (2 : ℚ) ^ expDown q n * q < 2 := by
  induction n with
  | zero =>
    intro q _ h1 h2
    simp at h2
    linarith
  | succ n ih =>
    intro q h0 h1 h2
    unfold expDown
    rw [if_pos h1]
    by_cases h3 : 2 * q < 1
    · have := ih (2 * q) (by linarith) h3 (by rw [pow_succ] at h2; linarith)
      rw [pow_succ]
      constructor <;> [linarith [this.1]; linarith [this.2]]
    · have hz : expDown (2 * q) n = 0 := by
        cases n with
        | zero => rfl
        | succ m => unfold expDown; rw [if_neg h3]
      rw [hz]
      simp only [not_lt] at h3
      constructor <;> norm_num <;> linarith

theorem binade_spec (q : ℚ) (hq : 0 < q) :
    (2 : ℚ) ^ binade q ≤ q ∧ q < (2 : ℚ) ^ (binade q + 1) := by
  have hden : (0 : ℚ) < q.den := by exact_mod_cast q.den_pos
  have hnum : 0 < q.num := Rat.num_pos.mpr hq
  have hqd : q * q.den = q.num := Rat.mul_den_eq_num q
  unfold binade
  split_ifs with h1
  · have hfuel : q < (2 : ℚ) ^ (q.num.natAbs + 1) := by
      have h2 : q ≤ (q.num.natAbs : ℚ) := by
        have h3 : (q.num.natAbs : Int) = q.num := Int.natAbs_of_nonneg hnum.le
        have h4 : (1 : ℚ) ≤ q.den := by exact_mod_cast q.den_pos
        have h5 : (q.num.natAbs : ℚ) = q.num :=
          calc (q.num.natAbs : ℚ) = ((q.num.natAbs : Int) : ℚ) := (Int.cast_natCast _).symm
            _ = q.num := by rw [h3]
        rw [h5, ← hqd]
        nlinarith
      have h6 : (q.num.natAbs : ℚ) < (2 : ℚ) ^ (q.num.natAbs + 1) := by
        have := Nat.lt_two_pow q.num.natAbs
        have h7 : q.num.natAbs < 2 ^ (q.num.natAbs + 1) := by
          rw [pow_succ]; omega
        exact_mod_cast h7
      linarith
    constructor
    · rw [zpow_natCast]
      exact expUp_le _ q h1
    · have := expUp_lt _ q hfuel
      rw [show ((expUp q q.num.natAbs : Int) + 1) = ((expUp q q.num.natAbs + 1 : Nat) : Int) by
        push_cast; ring, zpow_natCast]
      exact this
  · simp only [not_le] at h1
    have hfuel : 1 ≤ (2 : ℚ) ^ q.den * q := by
      have h2 : (q.den : ℚ) < (2 : ℚ) ^ q.den := by
        exact_mod_cast Nat.lt_two_pow q.den
      have h3 : (1 : ℚ) ≤ q.num := by exact_mod_cast hnum
      have h4 : (1 : ℚ) ≤ q * q.den := by rw [hqd]; exact h3
      nlinarith
    obtain ⟨s1, s2⟩ := expDown_spec q.den q hq h1 hfuel
    have hp : (0 : ℚ) < (2 : ℚ) ^ expDown q q.den := by positivity
    have hinv : ((2 : ℚ) ^ expDown q q.den)⁻¹ * ((2 : ℚ) ^ expDown q q.den * q) = q := by
      field_simp
    have hi : (0 : ℚ) < ((2 : ℚ) ^ expDown q q.den)⁻¹ := inv_pos.mpr hp
    constructor
    · rw [zpow_neg, zpow_natCast]
      calc ((2 : ℚ) ^ expDown q q.den)⁻¹ = ((2 : ℚ) ^ expDown q q.den)⁻¹ * 1 := by ring
        _ ≤ ((2 : ℚ) ^ expDown q q.den)⁻¹ * ((2 : ℚ) ^ expDown q q.den * q) :=
          mul_le_mul_of_nonneg_left s1 hi.le
        _ = q := hinv
    · rw [zpow_add_one₀ (by norm_num), zpow_neg, zpow_natCast]
      calc q = ((2 : ℚ) ^ expDown q q.den)⁻¹ * ((2 : ℚ) ^ expDown q q.den * q) := hinv.symm
        _ < ((2 : ℚ) ^ expDown q q.den)⁻¹ * 2 := mul_lt_mul_of_pos_left s2 hi

theorem decodeBerat_err (raw : Nat) (hraw : raw < 65536) :
    |toFloat (toDouble (((raw / 100 : Nat) : ℚ) + toDouble (((raw % 100 : Nat) : ℚ) / 100)))
      - (raw : ℚ) / 100| < 1 / 32000 := by
  have hq1 : (0 : ℚ) ≤ ((raw % 100 : Nat) : ℚ) / 100 := by positivity
  have hq1' : ((raw % 100 : Nat) : ℚ) / 100 < (2 : ℚ) ^ (0 + 1) := by
    have : raw % 100 < 100 := Nat.mod_lt _ (by norm_num)
    have : ((raw % 100 : Nat) : ℚ) < 100 := by exact_mod_cast this
    rw [div_lt_iff₀ (by norm_num)]
    norm_num
    linarith
  have hA : ((raw / 100 : Nat) : ℚ) ≤ 655 := by
    have : raw / 100 ≤ 655 := by omega
    exact_mod_cast this
  have hA0 : (0 : ℚ) ≤ ((raw / 100 : Nat) : ℚ) := by positivity
  set a : ℚ := ((raw / 100 : Nat) : ℚ) with ha
  set q1 : ℚ := ((raw % 100 : Nat) : ℚ) / 100 with hq1def
  have hsplit : (raw : ℚ) / 100 = a + q1 := (split_hundred raw).symm
  have e1 := roundBinary_err 53 q1 0 hq1 hq1'
  have n1 := roundBinary_nonneg 53 q1 hq1
  have c1 : (2 : ℚ) ^ (((0 : Nat) : Int) - ((53 : Nat) : Int)) = 1 / 2 ^ 53 := by
    norm_num [zpow_neg]
  rw [c1] at e1
  have e1' := abs_le.mp e1
  set x1 := roundBinary 53 q1 with hx1
  have hy0 : 0 ≤ a + x1 := by linarith
  have hq1lt : q1 < 1 := by
    have : raw % 100 < 100 := Nat.mod_lt _ (by norm_num)
    have : ((raw % 100 : Nat) : ℚ) < 100 := by exact_mod_cast this
    rw [hq1def, div_lt_iff₀ (by norm_num)]
    linarith
  have hy1 : a + x1 < (2 : ℚ) ^ (9 + 1) := by
    norm_num
    norm_num at e1'
    linarith [e1'.2]
  have e2 := roundBinary_err 53 (a + x1) 9 hy0 hy1
  have n2 := roundBinary_nonneg 53 (a + x1) hy0
  have c2 : (2 : ℚ) ^ (((9 : Nat) : Int) - ((53 : Nat) : Int)) = 1 / 2 ^ 44 := by
    norm_num [zpow_neg]
  rw [c2] at e2
  have e2' := abs_le.mp e2
  set x2 := roundBinary 53 (a + x1) with hx2
  have hz1 : x2 < (2 : ℚ) ^ (9 + 1) := by
    norm_num
    norm_num at e1' e2'
    linarith [e1'.2, e2'.2]
  have e3 := roundBinary_err 24 x2 9 n2 hz1
  have c3 : (2 : ℚ) ^ (((9 : Nat) : Int) - ((24 : Nat) : Int)) = 1 / 2 ^ 15 := by
    norm_num [zpow_neg]
  rw [c3] at e3
  have e3' := abs_le.mp e3
  unfold toFloat toDouble
  rw [hsplit, abs_lt]
  norm_num at e1' e2' e3' ⊢
  constructor <;> linarith [e1'.1, e1'.2, e2'.1, e2'.2, e3'.1, e3'.2]

theorem roundBinary_nearest (p : Nat) (q : ℚ) (hq : 0 < q) :
    (∃ m : Int, roundBinary p q = (m : ℚ) * (2 : ℚ) ^ (binade q - ((p : Int) - 1))) ∧
    |roundBinary p q - q| ≤ (2 : ℚ) ^ (binade q - ((p : Int) - 1)) / 2 := by
  have hu := pow2_pos (binade q - ((p : Int) - 1))
  have he := roundHalfEven_err (q / pow2 (binade q - ((p : Int) - 1)))
  have hr : roundBinary p q = (roundHalfEven (q / pow2 (binade q - ((p : Int) - 1))) : ℚ)
      * pow2 (binade q - ((p : Int) - 1)) := by
    unfold roundBinary
    rw [if_neg hq.ne', if_neg (not_lt.mpr hq.le), abs_of_pos hq]
    ring
  constructor
  · exact ⟨_, by rw [hr, pow2_eq_zpow]⟩
  · rw [hr, ← pow2_eq_zpow]
    have hmul : (roundHalfEven (q / pow2 (binade q - ((p : Int) - 1))) : ℚ)
        * pow2 (binade q - ((p : Int) - 1)) - q
        = ((roundHalfEven (q / pow2 (binade q - ((p : Int) - 1))) : ℚ)
            - q / pow2 (binade q - ((p : Int) - 1))) * pow2 (binade q - ((p : Int) - 1)) := by
      field_simp
    rw [hmul, abs_mul, abs_of_pos hu]
    calc _ ≤ 1 / 2 * pow2 (binade q - ((p : Int) - 1)) := mul_le_mul_of_nonneg_right he hu.le
      _ = _ := by ring

/-! ## Height computation -/

/-- C4. For every pulse duration, the value the height stage stores in
`currentTinggi`, computed from `distance = trunc (duration * 17 / 1000)`, lies
in `[0, 150]`, and it is `150 - distance` whenever that number already lies in
`[0, 150]`. -/
theorem height_always_clamped (s : State) (i : Input) :
    distance i.duration = Int.tdiv (i.duration * 17) 1000 ∧
    0 ≤ (prosesTinggi s i).currentTinggi ∧ (prosesTinggi s i).currentTinggi ≤ 150 ∧
    (0 ≤ 150 - distance i.duration ∧ 150 - distance i.duration ≤ 150 →
      (prosesTinggi s i).currentTinggi = 150 - distance i.duration) := by
  rw [prosesTinggi_currentTinggi]
  refine ⟨rfl, (computeTinggi_bounds _).1, (computeTinggi_bounds _).2, ?_⟩
  rintro ⟨h1, h2⟩
  unfold computeTinggi
  simp only
  split_ifs <;> omega

/-! ## Weight decoding -/

/-- C5 as stated fails: the bytes `0x18, 0x5A` (raw 6234) decode to the `float`
`16342057 / 262144`, which is not the rational number `6234 / 100`. -/
theorem decoded_weight_is_rounded :
    stableWeightState.sudahMulai = true ∧ stableWeightState.tinggiLocked = true ∧
    stableWeightState.beratLocked = false ∧
    scaleInput.ble = some ⟨"28:29:47:39:32:70", [0xFF, 0xFF, 0x18, 0x5A, 0x00]⟩ ∧
    decodeRaw 0x18 0x5A = 6234 ∧
    (loop stableWeightState scaleInput).1.berat = 16342057 / 262144 ∧
    (loop stableWeightState scaleInput).1.berat ≠ ((6234 : Nat) : ℚ) / 100 := by
  decide!

/-- C5, amended. When the weight stage handles an advertisement of the
allow-listed scale whose manufacturer data has at least 4 bytes, the weight it
stores is a function of the bytes `b1 = data[2]` and `b2 = data[3]` alone: with
`raw = 256 * b1 + b2` it is the `float` obtained from
`raw / 100 + (raw % 100) / 100.0` (integer quotient and remainder, the division
and the sum rounded to `double`, the result narrowed to `float`), which
differs from the rational number `raw / 100` by less than `1 / 32000`.  In
particular bytes `0x01, 0x2C` give `raw = 300` and weight exactly `3`, bytes
`0x00, 0x32` give `raw = 50` and weight exactly `1/2`. -/
theorem weight_decoding (s : State) (i : Input) (p : Peripheral) (b1 b2 : Nat)
    (hrun : s.sudahMulai = true) (hT : s.tinggiLocked = true) (hB : s.beratLocked = false)
    (hble : i.ble = some p) (hmac : p.address = allowedMac)
    (hlen : 4 ≤ p.manufacturerData.length)
    (h1 : p.manufacturerData[2]? = some b1) (h2 : p.manufacturerData[3]? = some b2)
    (hb1 : b1 < 256) (hb2 : b2 < 256) :
    decodeRaw b1 b2 = 256 * b1 + b2 ∧
    (loop s i).1.berat
      = toFloat (toDouble ((((256 * b1 + b2) / 100 : Nat) : ℚ)
          + toDouble ((((256 * b1 + b2) % 100 : Nat) : ℚ) / 100))) ∧
    |(loop s i).1.berat - ((256 * b1 + b2 : Nat) : ℚ) / 100| < 1 / 32000 ∧
    decodeRaw 0x01 0x2C = 300 ∧ decodeBerat 0x01 0x2C = 3 ∧
    decodeRaw 0x00 0x32 = 50 ∧ decodeBerat 0x00 0x32 = 1 / 2 := by
  have hraw := decodeRaw_eq b1 b2 hb2
  have hm2 : mfgByte p 2 = b1 := by
    simp [mfgByte, List.getD, h1, Nat.mod_eq_of_lt hb1]
  have hm3 : mfgByte p 3 = b2 := by
    simp [mfgByte, List.getD, h2, Nat.mod_eq_of_lt hb2]
  have hl : mfgLen p ≥ 4 := by
    unfold mfgLen
    omega
  have hb : (loop s i).1.berat = decodeBerat b1 b2 := by
    rw [loop_berat s i hrun hT hB]
    show (prosesBerat s i).berat = _
    rw [prosesBerat_berat]
    unfold bacaBerat
    simp only [hble, hmac, hl, if_true, beratOf, hm2, hm3]
    split_ifs <;> rfl
  have hd : decodeBerat b1 b2
      = toFloat (toDouble ((((256 * b1 + b2) / 100 : Nat) : ℚ)
          + toDouble ((((256 * b1 + b2) % 100 : Nat) : ℚ) / 100))) := by
    unfold decodeBerat
    simp only [hraw]
  have hlt : 256 * b1 + b2 < 65536 := by omega
  refine ⟨hraw, hb.trans hd, ?_, by decide, by decide!, by decide, by decide!⟩
  rw [hb, hd]
  exact decodeBerat_err (256 * b1 + b2) hlt

theorem prosesBerat_height (s : State) (i : Input) :
    heightFields (prosesBerat s i) = heightFields s := by
  unfold prosesBerat bacaBerat heightFields
  simp only
  split_ifs <;> (try split) <;> (try split_ifs) <;> rfl

theorem bacaBerat_idle (s : State) (i : Input)
    (hble : i.ble = none ∨ ∃ p, i.ble = some p ∧ p.address ≠ allowedMac) :
    bacaBerat s i = s := by
  unfold bacaBerat
  rcases hble with h | ⟨p, h, hp⟩
  · simp [h]
  · simp [h, hp]

theorem prosesTinggi_change (s : State) (i : Input)
    (hne : computeTinggi i.duration ≠ s.previousTinggi) :
    prosesTinggi s i =
      if subUL (millis i.t2) (millis i.t1) ≥ tinggiLockDuration ∧ computeTinggi i.duration > 0 then
        { s with currentTinggi := computeTinggi i.duration,
                 previousTinggi := computeTinggi i.duration,
                 tinggiLastUpdate := millis i.t1, tinggiLocked := true }
      else
        { s with currentTinggi := computeTinggi i.duration,
                 previousTinggi := computeTinggi i.duration,
                 tinggiLastUpdate := millis i.t1 } := by
  unfold prosesTinggi
  simp only [ne_eq, hne, not_false_eq_true, if_true]

theorem prosesTinggi_same (s : State) (i : Input)
    (heq : computeTinggi i.duration = s.previousTinggi) :
    prosesTinggi s i =
      if subUL (millis i.t2) s.tinggiLastUpdate ≥ tinggiLockDuration ∧ s.previousTinggi > 0 then
        { s with currentTinggi := computeTinggi i.duration, tinggiLocked := true }
      else
        { s with currentTinggi := computeTinggi i.duration } := by
  unfold prosesTinggi
  simp only [ne_eq, heq, not_true_eq_false, if_false]

theorem prosesTinggi_previousTinggi (s : State) (i : Input) :
    (prosesTinggi s i).previousTinggi = computeTinggi i.duration := by
  by_cases h : computeTinggi i.duration = s.previousTinggi
  · rw [prosesTinggi_same s i h]
    split_ifs <;> exact h.symm
  · rw [prosesTinggi_change s i h]
    split_ifs <;> rfl

theorem prosesTinggi_locked_pos (s : State) (i : Input) (hT : s.tinggiLocked = false)
    (hl : (prosesTinggi s i).tinggiLocked = true) : 0 < (prosesTinggi s i).previousTinggi := by
  by_cases h : computeTinggi i.duration = s.previousTinggi
  · rw [prosesTinggi_same s i h] at hl ⊢
    split_ifs at hl ⊢ with hc
    · exact hc.2
    · simp [hT] at hl
  · rw [prosesTinggi_change s i h] at hl ⊢
    split_ifs at hl ⊢ with hc
    · exact hc.2
    · simp [hT] at hl

theorem prosesTinggi_weight (s : State) (i : Input) :
    (prosesTinggi s i).beratLocked = s.beratLocked ∧
    (prosesTinggi s i).previousBerat = s.previousBerat ∧
    (prosesTinggi s i).berat = s.berat ∧
    (prosesTinggi s i).sudahMulai = s.sudahMulai ∧
    (prosesTinggi s i).dataReset = s.dataReset ∧
    (prosesTinggi s i).dataSent = s.dataSent ∧
    (prosesTinggi s i).wifiConnected = s.wifiConnected := by
  unfold prosesTinggi
  simp only
  split_ifs <;> simp

theorem loop_height_frozen (s : State) (i : Input) (hT : s.tinggiLocked = true)
    (hB : s.beratLocked = false) : heightFields (loop s i).1 = heightFields s := by
  cases hrun : s.sudahMulai
  · rw [loop_idle s i hrun]
  · rw [loop_berat s i hrun hT hB]
    exact prosesBerat_height s i

theorem run_height_frozen (s : State) (inp : Nat → Input) (k : Nat) (hT : s.tinggiLocked = true)
    (hall : ∀ j, j < k → (run s inp j).beratLocked = false) :
    heightFields (run s inp k) = heightFields s := by
  induction k with
  | zero => rfl
  | succ k ih =>
    have ihk := ih (fun j hj => hall j (Nat.lt_succ_of_lt hj))
    have hTk : (run s inp k).tinggiLocked = true := by
      have := congrArg (fun q => q.2.2.2) ihk
      simpa [heightFields, hT] using this
    show heightFields (loop (run s inp k) (inp k)).1 = _
    rw [loop_height_frozen _ _ hTk (hall k (Nat.lt_succ_self k)), ihk]

theorem run_add (s : State) (inp : Nat → Input) (a m : Nat) :
    run s inp (a + m) = run (run s inp a) (fun j => inp (a + j)) m := by
  induction m with
  | zero => rfl
  | succ m ih =>
    show (loop (run s inp (a + m)) (inp (a + m))).1 = _
    rw [ih]
    rfl

theorem prosesBerat_eq (s : State) (i : Input) :
    prosesBerat s i =
      if beratLockTest (bacaBerat s i) i.t2 then { bacaBerat s i with beratLocked := true }
      else bacaBerat s i := rfl

theorem bacaBerat_cases (s : State) (i : Input) :
    bacaBerat s i = s ∨
    ∃ p, i.ble = some p ∧ p.address = allowedMac ∧ 4 ≤ mfgLen p ∧
      (bacaBerat s i = { s with berat := beratOf p, previousBerat := beratOf p,
                                beratLastUpdate := millis i.t1 } ∨
       (beratOf p = s.previousBerat ∧ bacaBerat s i = { s with berat := beratOf p })) := by
  unfold bacaBerat
  cases hble : i.ble with
  | none => exact Or.inl rfl
  | some p =>
    by_cases hmac : p.address = allowedMac
    · by_cases hlen : mfgLen p ≥ 4
      · right
        refine ⟨p, rfl, hmac, hlen, ?_⟩
        by_cases hne : beratOf p = s.previousBerat
        · right
          simp [hmac, hlen, hne]
        · left
          simp [hmac, hlen, hne]
      · left
        simp [hmac, hlen]
    · left
      simp [hmac]

theorem prosesBerat_locked_pos (s : State) (i : Input) (hB : s.beratLocked = false)
    (hl : (prosesBerat s i).beratLocked = true) : 0 < (prosesBerat s i).previousBerat := by
  rw [prosesBerat_eq] at hl ⊢
  split_ifs at hl ⊢ with hc
  · exact hc.2
  · exfalso
    rcases bacaBerat_cases s i with h | ⟨p, _, _, _, h | ⟨_, h⟩⟩ <;>
      · rw [h] at hl
        simp [hB] at hl

theorem loop_tinggi_nonpos (s : State) (i : Input) (hT : s.tinggiLocked = false)
    (hp : (loop s i).1.previousTinggi ≤ 0) : (loop s i).1.tinggiLocked = false := by
  cases hrun : s.sudahMulai
  · rw [loop_idle s i hrun]
    exact hT
  · rw [loop_tinggi s i hrun hT] at hp ⊢
    cases hl : (prosesTinggi s i).tinggiLocked
    · rfl
    · have := prosesTinggi_locked_pos s i hT hl
      change (prosesTinggi s i).previousTinggi ≤ 0 at hp
      omega

theorem loop_berat_nonpos (s : State) (i : Input) (hB : s.beratLocked = false)
    (hp : (loop s i).1.previousBerat ≤ 0) : (loop s i).1.beratLocked = false := by
  cases hrun : s.sudahMulai
  · rw [loop_idle s i hrun]
    exact hB
  · cases hT : s.tinggiLocked
    · rw [loop_tinggi s i hrun hT]
      show (prosesTinggi s i).beratLocked = false
      rw [(prosesTinggi_weight s i).1]
      exact hB
    · rw [loop_berat s i hrun hT hB] at hp ⊢
      cases hl : (prosesBerat s i).beratLocked
      · rfl
      · have := prosesBerat_locked_pos s i hB hl
        change (prosesBerat s i).previousBerat ≤ 0 at hp
        exact absurd this (not_lt.mpr hp)

theorem beratOf_zero (p : Peripheral) (h : decodeRaw (mfgByte p 2) (mfgByte p 3) = 0) :
    beratOf p = 0 := by
  unfold beratOf decodeBerat
  simp [h, toFloat, toDouble, roundBinary]

theorem prosesBerat_previousBerat (s : State) (i : Input) :
    (prosesBerat s i).previousBerat = (bacaBerat s i).previousBerat := by
  rw [prosesBerat_eq]
  split_ifs <;> rfl

theorem loop_previousBerat_nonpos (s : State) (i : Input) (hB : s.beratLocked = false)
    (hP : s.previousBerat ≤ 0)
    (hz : ∀ p, i.ble = some p → p.address = allowedMac → 4 ≤ mfgLen p →
      decodeRaw (mfgByte p 2) (mfgByte p 3) = 0) :
    (loop s i).1.previousBerat ≤ 0 := by
  cases hrun : s.sudahMulai
  · rw [loop_idle s i hrun]
    exact hP
  · cases hT : s.tinggiLocked
    · rw [loop_tinggi s i hrun hT]
      show (prosesTinggi s i).previousBerat ≤ 0
      rw [(prosesTinggi_weight s i).2.1]
      exact hP
    · rw [loop_berat s i hrun hT hB]
      show (prosesBerat s i).previousBerat ≤ 0
      rw [prosesBerat_previousBerat]
      rcases bacaBerat_cases s i with h | ⟨p, hble, hmac, hlen, h | ⟨_, h⟩⟩
      · rw [h]; exact hP
      · rw [h]
        show beratOf p ≤ 0
        rw [beratOf_zero p (hz p hble hmac hlen)]
      · rw [h]; exact hP

/-- Witness for C5 (amended): the scale advertises bytes `0x18, 0x5A` at
offsets 2 and 3; the stored weight is within `1 / 32000` of `6234 / 100`. -/
theorem weight_decoding_witness :
    |(loop stableWeightState scaleInput).1.berat - ((256 * 0x18 + 0x5A : Nat) : ℚ) / 100|
      < 1 / 32000 :=
  (weight_decoding stableWeightState scaleInput
    ⟨"28:29:47:39:32:70", [0xFF, 0xFF, 0x18, 0x5A, 0x00]⟩ 0x18 0x5A
    (by decide) (by decide) (by decide) rfl (by decide) (by decide) rfl rfl
    (by decide) (by decide)).2.2.1

/-! ## Weight stage without a usable advertisement -/

/-- C7 as stated fails: in the weight stage with a stable positive weight
stored 4000 ms ago, a call of `loop()` that sees no advertisement changes the
globals (it sets `beratLocked`). -/
theorem silent_weight_tick_sets_lock :
    stableWeightState.tinggiLocked = true ∧ stableWeightState.beratLocked = false ∧
    silentInput.ble = none ∧
    (loop stableWeightState silentInput).1 ≠ stableWeightState ∧
    (loop stableWeightState silentInput).1.beratLocked = true := by
  decide!

/-- C7, amended. In the weight stage (`tinggiLocked` true, `beratLocked`
false), a call of `loop()` that sees no
peripheral, or one whose address is not the allow-listed MAC, leaves every
global except `beratLocked` as it was; `beratLocked` is set exactly when the
lock test `millis() - beratLastUpdate >= 4000 && previousBerat > 0` holds, and
otherwise the globals are identical to those before the call. -/
theorem weight_tick_without_advert (s : State) (i : Input)
    (hrun : s.sudahMulai = true) (hT : s.tinggiLocked = true) (hB : s.beratLocked = false)
    (hble : i.ble = none ∨ ∃ p, i.ble = some p ∧ p.address ≠ allowedMac) :
    (beratLockTest s i.t2 → (loop s i).1 = { s with beratLocked := true }) ∧
    (¬ beratLockTest s i.t2 → (loop s i).1 = s) := by
  rw [loop_berat s i hrun hT hB]
  unfold prosesBerat
  simp only [bacaBerat_idle s i hble]
  unfold beratLockTest
  constructor
  · intro h
    rw [if_pos h]
  · intro h
    rw [if_neg h]

/-- Witness for C7 (amended): the silent tick on the stable weight state only
sets `beratLocked`. -/
theorem weight_tick_without_advert_witness :
    (loop stableWeightState silentInput).1 = { stableWeightState with beratLocked := true } :=
  (weight_tick_without_advert stableWeightState silentInput (by decide) (by decide) (by decide)
    (Or.inl (by decide))).1 (by decide!)

/-! ## Cycle teardown -/

/-- C9. A result-phase call of `loop()` (both stages locked), made from any
globals and with any HTTP outcomes, ends, whatever the
submission did, with `tinggiLocked`, `beratLocked` and `dataSent` false and both
stored samples at the sentinel `-1`; `dataReset` is true afterwards exactly when
`wifiConnected` holds and the reset request issued in this call answered 200.
The reset call is issued exactly when `wifiConnected` holds. -/
theorem teardown_unconditional (s : State) (i : Input)
    (hrun : s.sudahMulai = true) (hT : s.tinggiLocked = true) (hB : s.beratLocked = true) :
    (loop s i).1.tinggiLocked = false ∧ (loop s i).1.beratLocked = false ∧
    (loop s i).1.dataSent = false ∧
    (loop s i).1.previousTinggi = -1 ∧ (loop s i).1.previousBerat = -1 ∧
    ((loop s i).1.dataReset = true ↔ s.wifiConnected = true ∧ i.resetStatus = 200) ∧
    lastReset (loop s i).2
      = (if s.wifiConnected = true then some (some i.resetStatus) else none) := by
  rw [loop_hasil s i hrun hT hB]
  unfold hasilAkhir kirimHasil resetUkur resetDeviceData sendDataToServer
  cases hw : s.wifiConnected <;> cases hs : s.dataSent <;> cases hr : s.dataReset <;>
    by_cases h200 : i.resetStatus = 200 <;> by_cases h201 : i.sendStatus = 200 <;>
    simp [hw, hs, hr, h200, h201, lastReset]

/-- Witness for C9: teardown of the both-locked state with a send answered 500
and a reset answered 200. -/
theorem teardown_unconditional_witness :
    (loop bothLockedState { silentInput with sendStatus := 500 }).1.tinggiLocked = false ∧
    (loop bothLockedState { silentInput with sendStatus := 500 }).1.dataReset = true :=
  have h := teardown_unconditional bothLockedState { silentInput with sendStatus := 500 }
    (by decide) (by decide) (by decide)
  ⟨h.1, h.2.2.2.2.2.1.2 (by decide)⟩

/-! ## Idempotence after the height lock -/

/-- C10. Once the height is locked and the weight is not, a call of `loop()`
leaves `currentTinggi`, `previousTinggi`, `tinggiLastUpdate` and `tinggiLocked`
unchanged, whatever it reads; hence so does any number of calls up to and
including the one that locks the weight (the next call is the result phase,
which resets the cycle). -/
theorem height_frozen_after_lock :
    (∀ (s : State) (i : Input), s.tinggiLocked = true → s.beratLocked = false →
      heightFields (loop s i).1 = heightFields s) ∧
    (∀ (s : State) (inp : Nat → Input) (k : Nat), s.tinggiLocked = true →
      (∀ j, j < k → (run s inp j).beratLocked = false) →
      heightFields (run s inp k) = heightFields s) := by
  exact ⟨loop_height_frozen, fun s inp k hT hall => run_height_frozen s inp k hT hall⟩

/-- Witness for C10: two calls from the stable weight state, each seeing the
scale advertise raw value 6234 (the first stores the new weight, neither
locks), leave the height detector as it was. -/
theorem height_frozen_after_lock_witness :
    heightFields (loop stableWeightState scaleInput).1 = heightFields stableWeightState ∧
    heightFields (run stableWeightState (fun _ => scaleInput) 2)
      = heightFields stableWeightState :=
  ⟨height_frozen_after_lock.1 stableWeightState scaleInput (by decide) (by decide),
   height_frozen_after_lock.2 stableWeightState (fun _ => scaleInput) 2 (by decide)
     (by decide!)⟩

/-! ## Height lock timing -/

/-- C1. Take globals with `previousTinggi = -1` and `tinggiLocked` false, a
height `h > 0` and a tick interval `dt > 0` (a `millis()` difference, so below
`2^32`).  If the calls of `loop()` happen at the times `t0`, `t0 + dt`,
`t0 + 2 * dt`, ... (call `k` at `t0 + k * dt`, `millis()` showing that time
modulo `2^32`) and each computes the height `h`, and `n` is least with
`n * dt >= 4000`, then `tinggiLocked` is false before the call at
`t0 + n * dt`, that call sets it (locking the value `h`), and it is not set a
second time: it stays true on every later call of the cycle, the height stage
being skipped until the result phase resets it. -/
theorem height_lock_timing (s : State) (inp : Nat → Input) (h : Int) (t0 dt n : Nat)
    (hrun : s.sudahMulai = true) (hP : s.previousTinggi = -1) (hT : s.tinggiLocked = false)
    (hh : 0 < h) (_hdt : 0 < dt) (hdtM : dt < ULONG_MOD)
    (hinp : ∀ k, k ≤ n → computeTinggi (inp k).duration = h ∧
      (inp k).t1 = t0 + k * dt ∧ (inp k).t2 = t0 + k * dt)
    (hn : tinggiLockDuration ≤ n * dt) (hleast : ∀ m, m < n → m * dt < tinggiLockDuration) :
    (∀ k, k ≤ n → (run s inp k).tinggiLocked = false) ∧
    (run s inp (n + 1)).tinggiLocked = true ∧
    (run s inp (n + 1)).currentTinggi = h ∧
    (∀ m, (∀ j, j < m → (run s inp (n + 1 + j)).beratLocked = false) →
      (run s inp (n + 1 + m)).tinggiLocked = true ∧ (run s inp (n + 1 + m)).currentTinggi = h) := by
  have hn0 : 0 < n := by
    rcases Nat.eq_zero_or_pos n with h0 | h0
    · subst h0
      simp [tinggiLockDuration] at hn
    · exact h0
  -- the globals before call `k + 1`, for `k < n`
  have inv : ∀ k, k < n → (run s inp (k + 1)).tinggiLocked = false ∧
      (run s inp (k + 1)).previousTinggi = h ∧
      (run s inp (k + 1)).tinggiLastUpdate = millis t0 ∧
      (run s inp (k + 1)).sudahMulai = true := by
    intro k
    induction k with
    | zero =>
      intro _
      obtain ⟨hc, h1, h2⟩ := hinp 0 (Nat.zero_le n)
      have hne : computeTinggi (inp 0).duration ≠ s.previousTinggi := by
        rw [hc, hP]; omega
      have hsub : subUL (millis (t0 + 0 * dt)) (millis (t0 + 0 * dt)) = 0 := by
        have := subUL_millis_add (t0 + 0 * dt) 0
        simpa using this
      have e : run s inp (0 + 1) =
          { s with
            currentTinggi := computeTinggi (inp 0).duration,
            previousTinggi := computeTinggi (inp 0).duration,
            tinggiLastUpdate := millis (t0 + 0 * dt) } := by
        show (loop s (inp 0)).1 = _
        rw [loop_tinggi s _ hrun hT]
        show prosesTinggi s (inp 0) = _
        rw [prosesTinggi_change s _ hne, h1, h2, hsub, if_neg (by simp [tinggiLockDuration])]
      rw [e]
      simp [hT, hc, hrun]
    | succ k ih =>
      intro hk
      obtain ⟨iT, iP, iU, iR⟩ := ih (Nat.lt_of_succ_lt hk)
      obtain ⟨hc, h1, h2⟩ := hinp (k + 1) (Nat.le_of_lt hk)
      have heq : computeTinggi (inp (k + 1)).duration = (run s inp (k + 1)).previousTinggi := by
        rw [hc, iP]
      have hlt := hleast (k + 1) hk
      have hmod : (k + 1) * dt % ULONG_MOD = (k + 1) * dt := by
        apply Nat.mod_eq_of_lt
        unfold tinggiLockDuration at hlt
        unfold ULONG_MOD
        omega
      have e : run s inp (k + 1 + 1) =
          { run s inp (k + 1) with currentTinggi := computeTinggi (inp (k + 1)).duration } := by
        show (loop (run s inp (k + 1)) (inp (k + 1))).1 = _
        rw [loop_tinggi _ _ iR iT]
        show prosesTinggi (run s inp (k + 1)) (inp (k + 1)) = _
        have hsub : subUL (millis (inp (k + 1)).t2) (run s inp (k + 1)).tinggiLastUpdate
            = (k + 1) * dt := by
          rw [h2, iU, subUL_millis_add, hmod]
        rw [prosesTinggi_same _ _ heq, hsub,
          if_neg (by intro hc2; exact absurd hc2.1 (Nat.not_le.mpr hlt))]
      rw [e]
      simp [iT, iP, iU, iR]
  have before : ∀ k, k ≤ n → (run s inp k).tinggiLocked = false := by
    intro k hk
    cases k with
    | zero => exact hT
    | succ k => exact (inv k hk).1
  obtain ⟨m, rfl⟩ : ∃ m, n = m + 1 := ⟨n - 1, by omega⟩
  obtain ⟨iT, iP, iU, iR⟩ := inv m (Nat.lt_succ_self m)
  obtain ⟨hc, h1, h2⟩ := hinp (m + 1) (Nat.le_refl _)
  have heq : computeTinggi (inp (m + 1)).duration = (run s inp (m + 1)).previousTinggi := by
    rw [hc, iP]
  have hbound : (m + 1) * dt < ULONG_MOD := by
    have hm := hleast m (Nat.lt_succ_self m)
    rw [Nat.succ_mul]
    rcases Nat.eq_zero_or_pos m with h0 | h0
    · subst h0
      simpa using hdtM
    · have : dt ≤ m * dt := Nat.le_mul_of_pos_left dt h0
      unfold tinggiLockDuration at hm
      unfold ULONG_MOD
      omega
  have hlock : (run s inp (m + 1 + 1)).tinggiLocked = true ∧
      (run s inp (m + 1 + 1)).currentTinggi = h := by
    have e : run s inp (m + 1 + 1) =
        { run s inp (m + 1) with
          currentTinggi := computeTinggi (inp (m + 1)).duration, tinggiLocked := true } := by
      show (loop (run s inp (m + 1)) (inp (m + 1))).1 = _
      rw [loop_tinggi _ _ iR iT]
      show prosesTinggi (run s inp (m + 1)) (inp (m + 1)) = _
      have hsub : subUL (millis (inp (m + 1)).t2) (run s inp (m + 1)).tinggiLastUpdate
          = (m + 1) * dt := by
        rw [h2, iU, subUL_millis_add, Nat.mod_eq_of_lt hbound]
      rw [prosesTinggi_same _ _ heq, hsub, if_pos ⟨hn, by rw [iP]; exact hh⟩]
    rw [e]
    exact ⟨rfl, hc⟩
  refine ⟨before, hlock.1, hlock.2, ?_⟩
  intro j hall
  rw [run_add s inp (m + 1 + 1) j]
  have hf := run_height_frozen (run s inp (m + 1 + 1)) (fun q => inp (m + 1 + 1 + q)) j hlock.1
    (fun q hq => by rw [← run_add]; exact hall q hq)
  have e1 := congrArg (fun q => q.2.2.2) hf
  have e2 := congrArg (fun q => q.1) hf
  simp only [heightFields] at e1 e2
  rw [e1, e2]
  exact hlock

/-- Witness for C1: calls 1000 ms apart, starting 296 ms before the
`millis()` counter wraps, all measuring 120; the lock comes with call 4. -/
theorem height_lock_timing_witness :
    (run freshState steadyInputs 4).tinggiLocked = false ∧
    (run freshState steadyInputs 5).tinggiLocked = true ∧
    (run freshState steadyInputs 5).currentTinggi = 120 :=
  have h := height_lock_timing freshState steadyInputs 120 4294967000 1000 4
    (by decide) (by decide) (by decide) (by decide) (by decide) (by decide)
    (fun _ _ => ⟨rfl, rfl, rfl⟩) (by decide) (by decide)
  ⟨h.1 4 (Nat.le_refl 4), h.2.1, h.2.2.1⟩

/-! ## Sequences that never repeat -/

/-- C6. From globals with `tinggiLocked` false, if on each of the first `n`
calls of `loop()` the computed height differs from the `previousTinggi` left by
the call before, and the two `millis()` reads of a call are less than 4000 ms
apart, then `tinggiLocked` is false after every one of these calls, for any
call times and any `n`. -/
theorem changing_height_never_locks (s : State) (inp : Nat → Input) (n : Nat)
    (hT : s.tinggiLocked = false)
    (hchange : ∀ k, k < n → computeTinggi (inp k).duration ≠ (run s inp k).previousTinggi)
    (hreads : ∀ k, k < n → ∃ d, d < 4000 ∧ (inp k).t2 = (inp k).t1 + d) :
    ∀ k, k ≤ n → (run s inp k).tinggiLocked = false := by
  intro k
  induction k with
  | zero => exact fun _ => hT
  | succ k ih =>
    intro hk
    have ihk := ih (Nat.le_of_succ_le hk)
    show (loop (run s inp k) (inp k)).1.tinggiLocked = false
    cases hrun : (run s inp k).sudahMulai
    · rw [loop_idle _ _ hrun]
      exact ihk
    · rw [loop_tinggi _ _ hrun ihk]
      show (prosesTinggi (run s inp k) (inp k)).tinggiLocked = false
      obtain ⟨d, hd, ht⟩ := hreads k hk
      rw [prosesTinggi_change _ _ (hchange k hk), ht, subUL_millis_add]
      have hmod : d % ULONG_MOD = d := by
        apply Nat.mod_eq_of_lt
        unfold ULONG_MOD
        omega
      rw [hmod, if_neg (by
        intro hc
        have := hc.1
        unfold tinggiLockDuration at this
        omega)]
      exact ihk

/-- Witness for C6: four calls 5000 ms apart whose heights alternate between
150 and 120; no call locks. -/
theorem changing_height_never_locks_witness :
    (run freshState alternatingInputs 4).tinggiLocked = false :=
  changing_height_never_locks freshState alternatingInputs 4 (by decide) (by decide!)
    (fun _ _ => ⟨10, by decide, rfl⟩) 4 (Nat.le_refl 4)

/-! ## Positivity guard -/

/-- C8. A stored sample that is not positive never locks.  (1) A call of
`loop()` in the height stage that leaves `previousTinggi <= 0` leaves
`tinggiLocked` false, whatever the `millis()` readings.  (2) A call with
`beratLocked` false that leaves `previousBerat <= 0` leaves `beratLocked`
false.  (3) If the computed height is 0 on every call, `tinggiLocked` stays
false for any number of calls.  (4) If the stored weight starts non-positive
(the sentinel `-1` of a new cycle) and every advertisement of the scale
carries raw value 0, `beratLocked` stays false for any number of calls. -/
theorem nonpositive_sample_never_locks :
    (∀ (s : State) (i : Input), s.tinggiLocked = false →
      (loop s i).1.previousTinggi ≤ 0 → (loop s i).1.tinggiLocked = false) ∧
    (∀ (s : State) (i : Input), s.beratLocked = false →
      (loop s i).1.previousBerat ≤ 0 → (loop s i).1.beratLocked = false) ∧
    (∀ (s : State) (inp : Nat → Input), s.tinggiLocked = false →
      (∀ k, computeTinggi (inp k).duration = 0) →
      ∀ k, (run s inp k).tinggiLocked = false) ∧
    (∀ (s : State) (inp : Nat → Input), s.beratLocked = false → s.previousBerat ≤ 0 →
      (∀ k p, (inp k).ble = some p → p.address = allowedMac → 4 ≤ mfgLen p →
        decodeRaw (mfgByte p 2) (mfgByte p 3) = 0) →
      ∀ k, (run s inp k).beratLocked = false) := by
  refine ⟨loop_tinggi_nonpos, loop_berat_nonpos, ?_, ?_⟩
  · intro s inp hT hz k
    induction k with
    | zero => exact hT
    | succ k ih =>
      show (loop (run s inp k) (inp k)).1.tinggiLocked = false
      cases hrun : (run s inp k).sudahMulai
      · rw [loop_idle _ _ hrun]
        exact ih
      · apply loop_tinggi_nonpos _ _ ih
        rw [loop_tinggi _ _ hrun ih]
        show (prosesTinggi _ _).previousTinggi ≤ 0
        rw [prosesTinggi_previousTinggi, hz k]
  · intro s inp hB hP hz k
    have inv : (run s inp k).beratLocked = false ∧ (run s inp k).previousBerat ≤ 0 := by
      induction k with
      | zero => exact ⟨hB, hP⟩
      | succ k ih =>
        have hp : (loop (run s inp k) (inp k)).1.previousBerat ≤ 0 :=
          loop_previousBerat_nonpos _ _ ih.1 ih.2 (hz k)
        exact ⟨loop_berat_nonpos _ _ ih.1 hp, hp⟩
    exact inv.1

/-- Witness for C8: three calls measuring height 0 leave the height unlocked,
and three weight-stage calls seeing raw value 0 leave the weight unlocked. -/
theorem nonpositive_sample_never_locks_witness :
    (run freshState zeroInputs 3).tinggiLocked = false ∧
    (run weightStartState zeroInputs 3).beratLocked = false :=
  ⟨nonpositive_sample_never_locks.2.2.1 freshState zeroInputs (by decide) (fun _ => rfl) 3,
   nonpositive_sample_never_locks.2.2.2 weightStartState zeroInputs (by decide) (by decide!)
    (fun _ p h _ _ => by
      have h2 : some (⟨"28:29:47:39:32:70", [0xFF, 0xFF, 0x00, 0x00]⟩ : Peripheral) = some p := h
      injection h2 with h3
      subst h3
      decide) 3⟩

/-! ## Submission gating -/

theorem lastReset_append (a b : List Event) :
    lastReset (a ++ b) = match lastReset b with
      | some r => some r
      | none => lastReset a := by
  induction a with
  | nil =>
    cases h : lastReset b <;> simp [lastReset, h]
  | cons e a ih =>
    cases e with
    | send bb tb c => simpa [lastReset] using ih
    | reset c =>
      show (match lastReset (a ++ b) with
        | some r => some r
        | none => some c) = _
      rw [ih]
      cases h : lastReset b <;> simp [lastReset]

theorem prosesBerat_flags (s : State) (i : Input) :
    (prosesBerat s i).sudahMulai = s.sudahMulai ∧
    (prosesBerat s i).dataReset = s.dataReset ∧
    (prosesBerat s i).dataSent = s.dataSent ∧
    (prosesBerat s i).wifiConnected = s.wifiConnected := by
  rw [prosesBerat_eq]
  rcases bacaBerat_cases s i with h | ⟨p, _, _, _, h | ⟨_, h⟩⟩ <;>
    · rw [h]
      split_ifs <;> simp

theorem setup_inv (b : BootInput) (s0 : State) (ev0 : List Event)
    (hboot : setup b = some (s0, ev0)) : BootInv s0 ev0 := by
  unfold setup connectWiFi at hboot
  generalize connectWiFiLoop b.wifiStatus 20 0 = a at hboot
  cases hb : b.bleBegin <;> simp only [hb, Bool.not_false, Bool.not_true, if_true] at hboot
  · exact absurd hboot (by simp)
  · cases hw : b.wifiStatus (a + 1) <;> by_cases h200 : b.resetStatus = 200 <;>
      simp [hw, h200, resetDeviceData, initialState] at hboot <;>
      obtain ⟨rfl, rfl⟩ := hboot <;>
      simp [BootInv, lastReset, h200]

theorem hasilAkhir_inv (s : State) (i : Input) (hist : List Event) (h : BootInv s hist) :
    BootInv (hasilAkhir s i).1 (hist ++ (hasilAkhir s i).2) := by
  obtain ⟨h1, h2, h3, h4⟩ := h
  unfold BootInv
  rw [lastReset_append]
  unfold hasilAkhir kirimHasil resetUkur resetDeviceData sendDataToServer
  cases hw : s.wifiConnected
  · obtain ⟨h5, h6⟩ := h4 hw
    simp [hw, h1, h2, h5, h6, lastReset]
  · cases hr : s.dataReset <;> by_cases h200 : i.resetStatus = 200 <;>
      by_cases h201 : i.sendStatus = 200 <;>
      simp [hw, hr, h1, h2, h200, h201, lastReset]

theorem loop_inv (s : State) (i : Input) (hist : List Event) (h : BootInv s hist) :
    BootInv (loop s i).1 (hist ++ (loop s i).2) := by
  have hrun := h.1
  cases hT : s.tinggiLocked
  · rw [loop_tinggi s i hrun hT]
    obtain ⟨_, _, _, _, f1, f2, f3⟩ := prosesTinggi_weight s i
    have f0 := (prosesTinggi_weight s i).2.2.2.1
    simpa [BootInv, f0, f1, f2, f3] using h
  · cases hB : s.beratLocked
    · rw [loop_berat s i hrun hT hB]
      obtain ⟨f0, f1, f2, f3⟩ := prosesBerat_flags s i
      simpa [BootInv, f0, f1, f2, f3] using h
    · rw [loop_hasil s i hrun hT hB]
      exact hasilAkhir_inv s i hist h

theorem run_inv (s0 : State) (ev0 : List Event) (inp : Nat → Input) (h : BootInv s0 ev0) (k : Nat) :
    BootInv (run s0 inp k) (ev0 ++ log s0 inp k) := by
  induction k with
  | zero => simpa [run, log] using h
  | succ k ih =>
    have := loop_inv (run s0 inp k) (inp k) _ ih
    simpa [run, log, List.append_assoc] using this

/-- C2. In every state reached from boot (`setup` returning, then any number
of calls of `loop()` on arbitrary inputs) in which both stages are locked,
`dataReset` is true exactly when the most recent `resetDeviceData` call
answered HTTP 200, and the result-phase call of `loop()` made from that state
calls `sendDataToServer` exactly once if `dataReset` is true and not at all if
it is false. -/
theorem submission_gating (b : BootInput) (inp : Nat → Input) (k : Nat)
    (s0 : State) (ev0 : List Event) (hboot : setup b = some (s0, ev0))
    (hT : (run s0 inp k).tinggiLocked = true) (hB : (run s0 inp k).beratLocked = true) :
    ((run s0 inp k).dataReset = true ↔ lastReset (ev0 ++ log s0 inp k) = some (some 200)) ∧
    ((run s0 inp k).dataReset = true → countSend (loop (run s0 inp k) (inp k)).2 = 1) ∧
    ((run s0 inp k).dataReset = false → countSend (loop (run s0 inp k) (inp k)).2 = 0) := by
  obtain ⟨h1, h2, h3, h4⟩ := run_inv s0 ev0 inp (setup_inv b s0 ev0 hboot) k
  rw [loop_hasil _ _ h1 hT hB]
  refine ⟨?_, ?_, ?_⟩
  · cases hw : (run s0 inp k).wifiConnected
    · obtain ⟨h5, h6⟩ := h4 hw
      simp [h5, h6]
    · exact h3 hw
  · intro hr
    unfold hasilAkhir kirimHasil resetUkur resetDeviceData sendDataToServer
    cases hw : (run s0 inp k).wifiConnected <;> by_cases h200 : (inp k).resetStatus = 200 <;>
      by_cases h201 : (inp k).sendStatus = 200 <;>
      simp [hw, hr, h2, h200, h201, countSend]
  · intro hr
    unfold hasilAkhir kirimHasil resetUkur resetDeviceData sendDataToServer
    cases hw : (run s0 inp k).wifiConnected <;> by_cases h200 : (inp k).resetStatus = 200 <;>
      simp [hw, hr, h2, h200, countSend]

/-- Witness for C2: after a successful boot and the four measuring calls of
`cycleInputs`, the result-phase call submits once. -/
theorem submission_gating_witness :
    (run bootState cycleInputs 4).dataReset = true ∧
    countSend (loop (run bootState cycleInputs 4) (cycleInputs 4)).2 = 1 :=
  have h := submission_gating bootOk cycleInputs 4 bootState [Event.reset (some 200)]
    (by decide!) (by decide!) (by decide!)
  ⟨by decide!, h.2.1 (by decide!)⟩

/-! ## Submitted values -/

theorem first_flip (f : Nat → Bool) (k : Nat) (h0 : f 0 = false) (hk : f k = true) :
    ∃ a, a < k ∧ f a = false ∧ f (a + 1) = true := by
  induction k with
  | zero => rw [h0] at hk; exact absurd hk (by simp)
  | succ k ih =>
    cases hf : f k
    · exact ⟨k, Nat.lt_succ_self k, hf, hk⟩
    · obtain ⟨a, ha, h1, h2⟩ := ih hf
      exact ⟨a, Nat.lt_succ_of_lt ha, h1, h2⟩

theorem prosesBerat_fields (s : State) (i : Input) :
    (prosesBerat s i).berat = (bacaBerat s i).berat ∧
    (prosesBerat s i).previousBerat = (bacaBerat s i).previousBerat :=
  ⟨prosesBerat_berat s i, prosesBerat_previousBerat s i⟩

theorem loop_cycleInv (s : State) (i : Input) (h : CycleInv s)
    (hnot : ¬ (s.tinggiLocked = true ∧ s.beratLocked = true)) : CycleInv (loop s i).1 := by
  obtain ⟨h1, h2, h3, h4, h5, h6, h7⟩ := h
  cases hT : s.tinggiLocked
  · rw [loop_tinggi s i h1 hT]
    obtain ⟨f1, f2, f3, f4, f5, f6, _⟩ := prosesTinggi_weight s i
    obtain ⟨g1, g2⟩ := h4 hT
    refine ⟨f4.trans h1, f6.trans h2, f5.trans h3, ?_, ?_, ?_, ?_⟩
    · intro _
      exact ⟨f1.trans g1, f2.trans g2⟩
    · intro hl
      have hp := prosesTinggi_locked_pos s i hT hl
      have hb := computeTinggi_bounds i.duration
      show (prosesTinggi s i).currentTinggi = (prosesTinggi s i).previousTinggi ∧
        1 ≤ (prosesTinggi s i).currentTinggi ∧ (prosesTinggi s i).currentTinggi ≤ 150
      rw [prosesTinggi_previousTinggi] at hp ⊢
      rw [prosesTinggi_currentTinggi]
      exact ⟨rfl, by omega, hb.2⟩
    · intro hp
      show (prosesTinggi s i).previousBerat = (prosesTinggi s i).berat
      change 0 < (prosesTinggi s i).previousBerat at hp
      rw [f2] at hp ⊢
      rw [f3]
      exact h6 hp
    · intro hl
      change (prosesTinggi s i).beratLocked = true at hl
      rw [f1, g1] at hl
      exact absurd hl (by simp)
  · have hB : s.beratLocked = false := by
      cases hb : s.beratLocked
      · rfl
      · exact absurd ⟨hT, hb⟩ hnot
    have hfz := loop_height_frozen s i hT hB
    rw [loop_berat s i h1 hT hB] at hfz ⊢
    change heightFields (prosesBerat s i) = heightFields s at hfz
    have e1 : (prosesBerat s i).currentTinggi = s.currentTinggi := congrArg (fun q => q.1) hfz
    have e2 : (prosesBerat s i).previousTinggi = s.previousTinggi :=
      congrArg (fun q => q.2.1) hfz
    have e4 : (prosesBerat s i).tinggiLocked = s.tinggiLocked := congrArg (fun q => q.2.2.2) hfz
    obtain ⟨f0, f1, f2, _⟩ := prosesBerat_flags s i
    obtain ⟨b1, b2⟩ := prosesBerat_fields s i
    refine ⟨f0.trans h1, f2.trans h2, f1.trans h3, ?_, ?_, ?_, ?_⟩
    · intro hl
      change (prosesBerat s i).tinggiLocked = false at hl
      rw [e4, hT] at hl
      exact absurd hl (by simp)
    · intro _
      show (prosesBerat s i).currentTinggi = (prosesBerat s i).previousTinggi ∧
        1 ≤ (prosesBerat s i).currentTinggi ∧ (prosesBerat s i).currentTinggi ≤ 150
      rw [e1, e2]
      exact h5 hT
    · intro hp
      show (prosesBerat s i).previousBerat = (prosesBerat s i).berat
      change 0 < (prosesBerat s i).previousBerat at hp
      rw [b2] at hp ⊢
      rw [b1]
      rcases bacaBerat_cases s i with h | ⟨p, _, _, _, h | ⟨he, h⟩⟩
      · rw [h] at hp ⊢
        exact h6 hp
      · rw [h]
      · rw [h]
        exact he.symm
    · intro hl
      exact prosesBerat_locked_pos s i hB hl

theorem hasilAkhir_sendArgs (s : State) (i : Input) (h2 : s.dataSent = false)
    (h3 : s.dataReset = true) :
    sendArgs (hasilAkhir s i).2 = [(s.berat, (s.currentTinggi : ℚ))] := by
  unfold hasilAkhir kirimHasil resetUkur resetDeviceData sendDataToServer
  cases hw : s.wifiConnected <;> by_cases h200 : i.resetStatus = 200 <;>
    by_cases h201 : i.sendStatus = 200 <;>
    simp [hw, h2, h3, h200, h201, sendArgs]

/-- C3. Take a cycle that starts from freshly reset globals (both lock flags
and `dataSent` false, `previousBerat = -1`; the value of `previousTinggi` plays
no part) with the preceding reset acknowledged (`dataReset` true), and let call
`k` of `loop()` be its
result-phase call (the first call made with both stages locked).  Then there
are a call `a` that set `tinggiLocked` and a later call `b = k - 1` that set
`beratLocked`; the result-phase call invokes `sendDataToServer(bb, tb)` exactly
once, with `tb` the height `currentTinggi = previousTinggi` left by call `a`
and `bb` the weight `berat = previousBerat` left by call `b`; `1 <= tb <= 150`
and `bb > 0`; and between each lock and the submission the locked value does
not change. -/
theorem submitted_values_are_locked (s0 : State) (inp : Nat → Input) (k : Nat)
    (hrun : s0.sudahMulai = true) (hT0 : s0.tinggiLocked = false)
    (hB0 : s0.beratLocked = false) (hPB : s0.previousBerat = -1)
    (hDS : s0.dataSent = false) (hDR : s0.dataReset = true)
    (hfirst : ∀ j, j < k →
      ¬ ((run s0 inp j).tinggiLocked = true ∧ (run s0 inp j).beratLocked = true))
    (hT : (run s0 inp k).tinggiLocked = true) (hB : (run s0 inp k).beratLocked = true) :
    ∃ a b, a < b ∧ b + 1 = k ∧
      (run s0 inp a).tinggiLocked = false ∧ (run s0 inp (a + 1)).tinggiLocked = true ∧
      (run s0 inp b).beratLocked = false ∧ (run s0 inp (b + 1)).beratLocked = true ∧
      (run s0 inp (a + 1)).currentTinggi = (run s0 inp (a + 1)).previousTinggi ∧
      (run s0 inp (b + 1)).berat = (run s0 inp (b + 1)).previousBerat ∧
      sendArgs (loop (run s0 inp k) (inp k)).2
        = [((run s0 inp (b + 1)).berat, ((run s0 inp (a + 1)).currentTinggi : ℚ))] ∧
      (1 : ℚ) ≤ ((run s0 inp (a + 1)).currentTinggi : ℚ) ∧
      ((run s0 inp (a + 1)).currentTinggi : ℚ) ≤ 150 ∧
      0 < (run s0 inp (b + 1)).berat ∧
      (∀ j, a + 1 ≤ j → j ≤ k →
        (run s0 inp j).currentTinggi = (run s0 inp (a + 1)).currentTinggi) ∧
      (∀ j, b + 1 ≤ j → j ≤ k → (run s0 inp j).berat = (run s0 inp (b + 1)).berat) := by
  have hinv0 : CycleInv s0 := by
    refine ⟨hrun, hDS, hDR, fun _ => ⟨hB0, hPB⟩, ?_, ?_, ?_⟩
    · intro h; rw [hT0] at h; exact absurd h (by simp)
    · intro h; rw [hPB] at h; norm_num at h
    · intro h; rw [hB0] at h; exact absurd h (by simp)
  have hinv : ∀ j, j ≤ k → CycleInv (run s0 inp j) := by
    intro j
    induction j with
    | zero => exact fun _ => hinv0
    | succ j ih =>
      intro hj
      exact loop_cycleInv _ _ (ih (Nat.le_of_succ_le hj)) (hfirst j hj)
  obtain ⟨b, hbk, hBb, hBb1⟩ := first_flip (fun j => (run s0 inp j).beratLocked) k hB0 hB
  change (run s0 inp b).beratLocked = false at hBb
  change (run s0 inp (b + 1)).beratLocked = true at hBb1
  have ib := hinv b (Nat.le_of_lt hbk)
  have hTb : (run s0 inp b).tinggiLocked = true := by
    cases hc : (run s0 inp b).tinggiLocked
    · exfalso
      have hl : (loop (run s0 inp b) (inp b)).1.beratLocked = true := hBb1
      rw [loop_tinggi _ _ ib.1 hc] at hl
      change (prosesTinggi _ _).beratLocked = true at hl
      rw [(prosesTinggi_weight _ _).1, hBb] at hl
      exact absurd hl (by simp)
    · rfl
  obtain ⟨a, hab, hTa, hTa1⟩ := first_flip (fun j => (run s0 inp j).tinggiLocked) b hT0 hTb
  change (run s0 inp a).tinggiLocked = false at hTa
  change (run s0 inp (a + 1)).tinggiLocked = true at hTa1
  have hTb1 : (run s0 inp (b + 1)).tinggiLocked = true := by
    have hfz := loop_height_frozen (run s0 inp b) (inp b) hTb hBb
    have e4 : (loop (run s0 inp b) (inp b)).1.tinggiLocked = (run s0 inp b).tinggiLocked :=
      congrArg (fun q => q.2.2.2) hfz
    exact e4.trans hTb
  have hbk1 : b + 1 = k := by
    rcases Nat.lt_or_ge (b + 1) k with hlt | hge
    · exact absurd ⟨hTb1, hBb1⟩ (hfirst (b + 1) hlt)
    · omega
  -- the height detector is frozen from call `a + 1` to call `k`
  have hfrozen : ∀ m, a + 1 + m ≤ k →
      heightFields (run s0 inp (a + 1 + m)) = heightFields (run s0 inp (a + 1)) := by
    intro m
    induction m with
    | zero => exact fun _ => rfl
    | succ m ih =>
      intro hm
      have ihm := ih (by omega)
      have hTm : (run s0 inp (a + 1 + m)).tinggiLocked = true := by
        have e4 : (run s0 inp (a + 1 + m)).tinggiLocked = (run s0 inp (a + 1)).tinggiLocked :=
          congrArg (fun q => q.2.2.2) ihm
        exact e4.trans hTa1
      have hBm : (run s0 inp (a + 1 + m)).beratLocked = false := by
        cases hc : (run s0 inp (a + 1 + m)).beratLocked
        · rfl
        · exact absurd ⟨hTm, hc⟩ (hfirst (a + 1 + m) (by omega))
      have hstep := loop_height_frozen (run s0 inp (a + 1 + m)) (inp (a + 1 + m)) hTm hBm
      exact hstep.trans ihm
  have hcur : ∀ j, a + 1 ≤ j → j ≤ k →
      (run s0 inp j).currentTinggi = (run s0 inp (a + 1)).currentTinggi := by
    intro j h1 h2
    obtain ⟨m, rfl⟩ : ∃ m, j = a + 1 + m := ⟨j - (a + 1), by omega⟩
    exact congrArg (fun q => q.1) (hfrozen m h2)
  have ia := hinv (a + 1) (by omega)
  have ik := hinv k (Nat.le_refl k)
  obtain ⟨c1, c2, c3⟩ := ia.2.2.2.2.1 hTa1
  have hpos := ik.2.2.2.2.2.2 hB
  have hpb := ik.2.2.2.2.2.1 hpos
  refine ⟨a, b, hab, hbk1, hTa, hTa1, hBb, hBb1, c1, ?_, ?_, ?_, ?_, ?_, hcur, ?_⟩
  · rw [hbk1]; exact hpb.symm
  · rw [loop_hasil _ _ ik.1 hT hB, hasilAkhir_sendArgs _ _ ik.2.1 ik.2.2.1, hbk1,
      hcur k (by omega) (Nat.le_refl k)]
  · exact_mod_cast c2
  · exact_mod_cast c3
  · rw [hbk1, ← hpb]; exact hpos
  · intro j h1 h2
    have : j = b + 1 := by omega
    rw [this]

/-- Witness for C3: the cycle of `cycleInputs` after a successful boot; call 1
locks the height 120, call 3 locks the weight decoded from raw value 6234,
call 4 submits them. -/
theorem submitted_values_are_locked_witness :
    ∃ a b, a < b ∧ b + 1 = 4 ∧
      (run bootState cycleInputs a).tinggiLocked = false ∧
      (run bootState cycleInputs (a + 1)).tinggiLocked = true ∧
      (run bootState cycleInputs b).beratLocked = false ∧
      (run bootState cycleInputs (b + 1)).beratLocked = true ∧
      (run bootState cycleInputs (a + 1)).currentTinggi
        = (run bootState cycleInputs (a + 1)).previousTinggi ∧
      (run bootState cycleInputs (b + 1)).berat
        = (run bootState cycleInputs (b + 1)).previousBerat ∧
      sendArgs (loop (run bootState cycleInputs 4) (cycleInputs 4)).2
        = [((run bootState cycleInputs (b + 1)).berat,
            ((run bootState cycleInputs (a + 1)).currentTinggi : ℚ))] ∧
      (1 : ℚ) ≤ ((run bootState cycleInputs (a + 1)).currentTinggi : ℚ) ∧
      ((run bootState cycleInputs (a + 1)).currentTinggi : ℚ) ≤ 150 ∧
      0 < (run bootState cycleInputs (b + 1)).berat ∧
      (∀ j, a + 1 ≤ j → j ≤ 4 →
        (run bootState cycleInputs j).currentTinggi
          = (run bootState cycleInputs (a + 1)).currentTinggi) ∧
      (∀ j, b + 1 ≤ j → j ≤ 4 →
        (run bootState cycleInputs j).berat = (run bootState cycleInputs (b + 1)).berat) :=
  submitted_values_are_locked bootState cycleInputs 4 (by decide) (by decide) (by decide)
    (by decide!) (by decide) (by decide) (by decide!) (by decide!) (by decide!)

end IOT
